import Mathlib

/-!
Verification development for the easydk infer_server core: a shallow
embedding of the batching cache (`core/cache.h`), the staged pipeline
nodes (`core/engine.cpp`) and the `InferServer` facade
(`core/infer_server.cpp`), with theorems checking the natural-language
specification against the code.
-/

namespace InferServer

/-- Status codes of the infer_server API, as used by the core sources. -/
inductive Status where
  | SUCCESS
  | ERROR_BACKEND
  | WRONG_TYPE
  | TIMEOUT
  | INVALID_PARAM
deriving DecidableEq

/-- TaskDesc (`request_ctrl.h`): a non-owning RequestControl reference
(modelled as a control id) plus the item's positional index within its
request. -/
structure TaskDesc where
  ctrl : Nat
  index : Nat
deriving DecidableEq

/-- InferData: one logical client item.  The payload is abstracted as an
id; `desc` is optional because ownership of the descriptor migrates out
of the item when the package leaves the cache (`PreparePackage`). -/
structure InferData where
  payload : Nat
  desc : Option TaskDesc
deriving DecidableEq

/-- Package (`infer_server.h`): ordered items, the parallel descriptor
vector, the logical item count `data_num` (which may exceed
`data.length` for continuous single-blob inputs) and a priority. -/
structure Package where
  data : List InferData := []
  descs : List TaskDesc := []
  data_num : Nat := 0
  priority : Int := 0
deriving DecidableEq

/-- Observable side effects of the core on RequestControls and the
thread pool. -/
inductive Event where
  | processFailed (ctrl : Nat) (s : Status)
  | processDone (ctrl : Nat) (s : Status) (payload : Nat) (index : Nat)
  | pushToPool (priority : Int) (node : Nat)
  | doneNotify
deriving DecidableEq

/-- `it->desc->ctrl->IsDiscarded()` on one item, with the discard state
of the RequestControls given as a predicate `D` on control ids.  A
missing descriptor counts as live (the cache checks descriptors only
while they are present; `CacheDynamic::Enqueue` CHECKs them non-null). -/
def dataDiscarded (D : Nat → Bool) (it : InferData) : Bool :=
  match it.desc with
  | some d => D d.ctrl
  | none => false

/-- The control id an item's descriptor points at (`it->desc->ctrl`). -/
def ctrlOf (it : InferData) : Nat :=
  match it.desc with
  | some d => d.ctrl
  | none => 0

/-- Default-constructed TaskDesc. -/
def dfltDesc : TaskDesc := { ctrl := 0, index := 0 }

/-- Default-constructed InferData. -/
def dfltData : InferData := { payload := 0, desc := none }

/-- 2^32, the modulus of `uint32_t` arithmetic. -/
def u32 : Nat := 2 ^ 32

/-- `uint32_t` subtraction with wraparound, needed for the
`BatchSize() - 1` expression in `CacheStatic::Enqueue`. -/
def u32sub (a b : Nat) : Nat := (a % u32 + u32 - b % u32) % u32

/-- Inner loop of `CacheDynamic::ClearDiscard` over the items of the
drained queue: keep live items in order, report
`ProcessFailed(Status::SUCCESS)` on each discarded one. -/
def sweepItems (D : Nat → Bool) : List InferData → List InferData × List Event
  | [] => ([], [])
  | it :: rest =>
    let r := sweepItems D rest
    if dataDiscarded D it then (r.1, Event.processFailed (ctrlOf it) Status.SUCCESS :: r.2)
    else (it :: r.1, r.2)

/-- All items of the queued packages in order (the do-while loop of
`ClearDiscard` drains every package of `cache_`). -/
def queueItems : List Package → List InferData
  | [] => []
  | p :: rest => p.data ++ queueItems rest

/-- Re-packing loop of `CacheDynamic::ClearDiscard`: live items are
packed into fresh packages, flushed once a package reaches
`BatchSize()` items or the item list is exhausted. -/
def repackAux (bs : Nat) (cur : List InferData) : List InferData → List Package
  | [] => []
  | x :: rest =>
    let cur2 := cur ++ [x]
    if bs ≤ cur2.length ∨ rest = [] then
      { data := cur2, data_num := cur2.length } :: repackAux bs [] rest
    else repackAux bs cur2 rest

/-- `CacheDynamic::ClearDiscard`: drain the whole queue, drop discarded
items (reporting `ProcessFailed(SUCCESS)` on each) and rebatch the live
items into groups of at most `batch_size`. -/
def dynClearDiscard (D : Nat → Bool) (bs : Nat) (q : List Package) :
    List Package × List Event :=
  let r := sweepItems D (queueItems q)
  (repackAux bs [] r.1, r.2)

/-- `pack->data[0]->desc->ctrl->IsDiscarded()`: the head-item discard
test of `CacheStatic::ClearDiscard` (packages in a static cache are
never empty; the `[]` case is a total completion). -/
def firstDiscarded (D : Nat → Bool) (p : Package) : Bool :=
  match p.data with
  | [] => false
  | it :: _ => dataDiscarded D it

/-- `CacheStatic::ClearDiscard`: walk the queue and drop every package
whose first item is discarded, reporting `ProcessFailed(SUCCESS)` for
each item of a dropped package; kept packages stay in order. -/
def staticClearDiscard (D : Nat → Bool) : List Package → List Package × List Event
  | [] => ([], [])
  | p :: rest =>
    let r := staticClearDiscard D rest
    if firstDiscarded D p then
      (r.1, p.data.map (fun it => Event.processFailed (ctrlOf it) Status.SUCCESS) ++ r.2)
    else (p :: r.1, r.2)

/-- `CacheBase::MoveDescToPackage` (used by
`CacheDynamic::PreparePackage`): move each item's descriptor into the
parallel `descs` vector (appended via a back inserter). -/
def moveDescToPackage (p : Package) : Package :=
  { p with
    descs := p.descs ++ p.data.map (fun it => it.desc.getD dfltDesc),
    data := p.data.map (fun it => { it with desc := none }) }

/-- `CacheStatic::PreparePackage`: reset each item's descriptor (the
`descs` vector was already filled at `Enqueue`). -/
def staticPrepare (p : Package) : Package :=
  { p with data := p.data.map (fun it => { it with desc := none }) }

/-- Result of one `Pop` call: the returned package (none models a null
`PackagePtr`), the queue afterwards, and the emitted control events. -/
structure PopResult where
  ret : Option Package
  queue : List Package
  events : List Event
deriving DecidableEq

/-- Whether the head package holds any discarded item — the `find_if`
test of `CacheBase::Pop`. -/
def headHasDiscarded (D : Nat → Bool) (q : List Package) : Bool :=
  match q with
  | [] => false
  | p :: _ => p.data.any (fun it => dataDiscarded D it)

/-- `CacheBase::Pop` specialised to `CacheDynamic`.  `running` matters
only on an empty queue: the condition-variable predicate releases with
an empty queue only once `running` is false, and Pop then returns null;
the model returns `none` there, and theorems carry the wake condition
`q = [] → running = false` where it matters. -/
def popDyn (D : Nat → Bool) (bs : Nat) (running : Bool) (q : List Package) : PopResult :=
  match q with
  | [] => { ret := none, queue := [], events := [] }
  | p :: rest =>
    if p.data.any (fun it => dataDiscarded D it) then
      let r := dynClearDiscard D bs (p :: rest)
      match r.1 with
      | [] => { ret := none, queue := [], events := r.2 }
      | p' :: rest' => { ret := some (moveDescToPackage p'), queue := rest', events := r.2 }
    else { ret := some (moveDescToPackage p), queue := rest, events := [] }

/-- `CacheBase::Pop` specialised to `CacheStatic`. -/
def popStatic (D : Nat → Bool) (running : Bool) (q : List Package) : PopResult :=
  match q with
  | [] => { ret := none, queue := [], events := [] }
  | p :: rest =>
    if p.data.any (fun it => dataDiscarded D it) then
      let r := staticClearDiscard D (p :: rest)
      match r.1 with
      | [] => { ret := none, queue := [], events := r.2 }
      | p' :: rest' => { ret := some (staticPrepare p'), queue := rest', events := r.2 }
    else { ret := some (staticPrepare p), queue := rest, events := [] }

/-- `CacheBase::Push`: reject the package when the cache is not
running, otherwise hand it to the strategy's `Enqueue` (passed in as a
function, since `Enqueue` is virtual). -/
def cachePush (enqueue : List Package → Package → List Package × List Event)
    (running : Bool) (q : List Package) (p : Package) :
    Bool × List Package × List Event :=
  if running then
    let r := enqueue q p
    (true, r.1, r.2)
  else (false, q, [])

/-- `CacheStatic::CopyDescToPackageContinuous`: create `data_num`
descriptors sharing the first item's control, with sequential
indices. -/
def continuousDescs (c : Nat) (n : Nat) : List TaskDesc :=
  (List.range n).map (fun i => { ctrl := c, index := i })

/-- One flush of the `CacheStatic::Enqueue` loop: build the sub-package
that is pushed onto the cache.  `inDataNum` and `dataSize` are
`in->data_num` and `in->data.size()` of the incoming package, `chunk`
the items accumulated since the last flush (priority assignment uses
`Priority::Get`, which lives outside the given sources and which no
claim depends on; it is left at the default). -/
def staticFinalize (inDataNum dataSize : Nat) (chunk : List InferData) : Package :=
  { data := chunk,
    data_num := if dataSize = 1 then inDataNum else chunk.length,
    descs :=
      if dataSize = 1 ∧ inDataNum ≠ 1 then
        continuousDescs (ctrlOf (chunk.headD dfltData)) inDataNum
      else chunk.map (fun it => it.desc.getD dfltDesc) }

/-- The `for` loop of `CacheStatic::Enqueue`: `cur` holds the items of
the sub-package under construction; a flush happens when
`++batch_idx > BatchSize() - 1` (uint32 arithmetic) or the input is
exhausted. -/
def staticEnqueueAux (bs inDataNum dataSize : Nat) (cur : List InferData) :
    List InferData → List Package
  | [] => []
  | x :: rest =>
    let cur2 := cur ++ [x]
    if cur2.length > u32sub bs 1 ∨ rest = [] then
      staticFinalize inDataNum dataSize cur2 :: staticEnqueueAux bs inDataNum dataSize [] rest
    else staticEnqueueAux bs inDataNum dataSize cur2 rest

/-- `CacheStatic::Enqueue`: split the incoming package into
sub-packages of at most `batch_size` items and append them to the
queue (with the continuous-blob special case in `staticFinalize`). -/
def staticEnqueue (bs : Nat) (q : List Package) (inp : Package) : List Package :=
  q ++ staticEnqueueAux bs inp.data_num inp.data.length [] inp.data

/-- Modelled from the spec: `util/batcher.h` is not among the given
sources.  "AddItem(item): appends; when size reaches `batch_size`,
atomically emits a batch via the sink callback."  Returns the new
buffer and the emitted batch, if any. -/
def batcherAddItem (bs : Nat) (buf : List InferData) (x : InferData) :
    List InferData × Option (List InferData) :=
  let buf2 := buf ++ [x]
  if bs ≤ buf2.length then ([], some buf2) else (buf2, none)

/-- The sink installed by the `CacheDynamic` constructor: wrap an
emitted batch into a fresh package and append it to the cache
(priority assignment again uses the out-of-source `Priority::Get` and
is left at the default). -/
def dynSink (q : List Package) (batch : List InferData) : List Package :=
  q ++ [{ data := batch, data_num := batch.length }]

/-- Modelled from the spec: `session.h`/`session.cpp` are not among the
given sources.  "Send(package, per-request-callback): (1) Allocate a
RequestControl with a fresh dense request_id.  (2) Attach a
TaskDesc\x7bctrl, index\x7d to each InferData."  So every package pushed to
the cache carries one control shared by all of its items, with
sequential indices. -/
def sessionSend (ctrl : Nat) (payloads : List Nat) : Package :=
  { data := payloads.enum.map
      (fun pr => { payload := pr.2, desc := some { ctrl := ctrl, index := pr.1 } }),
    data_num := payloads.length }

/-- Modelled from the spec: `priority.h` is not among the given
sources.  `Priority::Next` "advances the package one tier" before it is
re-pushed to the thread pool for the next stage. -/
def priorityNext (p : Int) : Int := p + 1

/-- `TaskNode::Transmit`: with a down node, bump the package priority a
tier and push it to the thread pool targeting that node; at the tail,
emit one `ProcessDone(SUCCESS, data[idx], descs[idx]->index)` per
descriptor and then the engine's done notifier. -/
def transmit (down : Option Nat) (pack : Package) : Package × List Event :=
  match down with
  | some node =>
    let p2 := { pack with priority := priorityNext pack.priority }
    (p2, [Event.pushToPool p2.priority node])
  | none =>
    (pack,
      ((List.range pack.descs.length).map (fun i =>
          Event.processDone ((pack.descs.getD i dfltDesc).ctrl) Status.SUCCESS
            ((pack.data.getD i dfltData).payload) ((pack.descs.getD i dfltDesc).index)))
        ++ [Event.doneNotify])

/-- `TaskNode::operator()`: run the processor (its verdict is `s`); on
non-SUCCESS report `ProcessFailed(s)` for every descriptor of the
package, otherwise `Transmit` it. -/
def taskNodeRun (down : Option Nat) (s : Status) (pack : Package) : Package × List Event :=
  if s ≠ Status.SUCCESS then
    (pack, pack.descs.map (fun d => Event.processFailed d.ctrl s))
  else transmit down pack

/-- Session configuration, reduced to the fields the facade consults:
the signature components, the session name and null-ness of the three
pluggable pieces (a null `model`/`preproc`/`postproc` pointer is
modelled by the corresponding `has*` flag being false). -/
structure SessionDesc where
  name : String := ""
  modelPath : String
  funcName : String
  preprocType : String
  postprocType : String
  hasModel : Bool := true
  hasPreproc : Bool := true
  hasPostproc : Bool := true
deriving DecidableEq

/-- The executor signature string built by
`InferServerPrivate::CreateExecutor`. -/
def executorName (d : SessionDesc) : String :=
  d.modelPath ++ "_" ++ d.funcName ++ "_" ++ d.preprocType ++ "_" ++ d.postprocType

/-- The per-device server state the claims consult: the
name-to-executor map (executors modelled as ids) and the id counter for
fresh executors. -/
structure ServerState where
  executorMap : List (String × Nat) := []
  nextExecutor : Nat := 0
deriving DecidableEq

/-- Lookup in the executor map (`executor_map_.count` /
`executor_map_.at`). -/
def mapFind (m : List (String × Nat)) (k : String) : Option Nat :=
  match m with
  | [] => none
  | (k2, v) :: rest => if k2 = k then some v else mapFind rest k

/-- `InferServerPrivate::CreateExecutor`: return the executor already
registered under the signature if any; otherwise construct a fresh one
and register it.  `ctorOk = false` models the `Executor` constructor
throwing, in which case the catch block returns null and the map is
unchanged. -/
def createExecutor (st : ServerState) (d : SessionDesc) (ctorOk : Bool) :
    ServerState × Option Nat :=
  let name := executorName d
  match mapFind st.executorMap name with
  | some e => (st, some e)
  | none =>
    if ctorOk then
      ({ executorMap := st.executorMap ++ [(name, st.nextExecutor)],
         nextExecutor := st.nextExecutor + 1 },
       some st.nextExecutor)
    else (st, none)

/-- Result of a facade call: a value, a synchronously returned failure
(false / null), or a fatal glog CHECK (which aborts the process). -/
inductive Outcome (α : Type) where
  | ok (a : α)
  | fail
  | fatalCheck
deriving DecidableEq

/-- The session object as far as the claims consult it: its name, the
executor it references and whether it is a sync link (no observer). -/
structure SessionModel where
  name : String
  executor : Nat
  syncLink : Bool
deriving DecidableEq

/-- `InferServer::CreateSession`: `CHECK(desc.model)` and
`CHECK(desc.preproc)` abort on null; a missing postproc is replaced by
a default `Postprocessor`; then the executor is created or shared, and
null is returned if executor creation failed. -/
def createSession (st : ServerState) (d : SessionDesc) (hasObserver : Bool)
    (ctorOk : Bool) : ServerState × Outcome SessionModel :=
  if !d.hasModel then (st, Outcome.fatalCheck)
  else if !d.hasPreproc then (st, Outcome.fatalCheck)
  else
    let d2 := if d.hasPostproc then d
              else { d with hasPostproc := true, postprocType := "Postprocessor" }
    let r := createExecutor st d2 ctorOk
    match r.2 with
    | none => (r.1, Outcome.fail)
    | some e =>
      (r.1, Outcome.ok { name := d.name, executor := e, syncLink := !hasObserver })

/-- `InferServer::Request` (async): `CHECK` aborts on null session or
input; a sync-linked session is rejected with false; cache backpressure
timeout returns false; otherwise the verdict of `Session::Send` is
returned. -/
def requestAsync (sessionNull inputNull syncLink waitOk sendOk : Bool) : Outcome Bool :=
  if sessionNull then Outcome.fatalCheck
  else if inputNull then Outcome.fatalCheck
  else if syncLink then Outcome.fail
  else if !waitOk then Outcome.fail
  else Outcome.ok sendOk

/-- Return value of `InferServer::RequestSync`: either a bool or a
fatal CHECK. -/
inductive SyncRet where
  | ret (b : Bool)
  | fatalCheck
deriving DecidableEq

/-- Observable outcome of one `RequestSync` call: its return, the final
value written through `*status` (none = never written), whether
`ctrl->Discard()` was called, and whether `Session::Send` ran. -/
structure SyncOutcome where
  result : SyncRet
  status : Option Status
  discarded : Bool
  sent : Bool
deriving DecidableEq

/-- `InferServer::RequestSync`.  Wall-clock behaviour is abstracted
into inputs: `waitOk` is `WaitIfCacheFull`'s verdict, `waitElapsed` the
milliseconds it consumed, `sendOk` whether `Session::Send` returned a
control, `fulfilled` whether the per-request callback fulfilled the
future within the remaining timeout, and `cbStatus` the status the
callback wrote through `*status`. -/
def requestSync (sessionNull inputNull outputNull statusNull : Bool)
    (syncLink : Bool) (waitOk : Bool) (waitElapsed : Nat) (timeout : Int)
    (sendOk : Bool) (fulfilled : Bool) (cbStatus : Status) : SyncOutcome :=
  if sessionNull ∨ inputNull ∨ outputNull ∨ statusNull then
    { result := SyncRet.fatalCheck, status := none, discarded := false, sent := false }
  else if !syncLink then
    { result := SyncRet.ret false, status := none, discarded := false, sent := false }
  else if !waitOk then
    { result := SyncRet.ret false, status := some Status.TIMEOUT,
      discarded := false, sent := false }
  else
    let timeout2 := if timeout > 0 then timeout - (waitElapsed : Int) else timeout
    if timeout > 0 ∧ timeout2 < 1 then
      { result := SyncRet.ret false, status := some Status.TIMEOUT,
        discarded := false, sent := false }
    else if !sendOk then
      { result := SyncRet.ret false, status := none, discarded := false, sent := true }
    else if timeout2 > 0 then
      if fulfilled then
        { result := SyncRet.ret true, status := some cbStatus,
          discarded := false, sent := true }
      else
        { result := SyncRet.ret true, status := some Status.TIMEOUT,
          discarded := true, sent := true }
    else
      { result := SyncRet.ret true, status := some cbStatus,
        discarded := false, sent := true }

/-- Well-formedness of a package in a static cache, as produced by
`Session::Send` followed by `CacheStatic::Enqueue`: non-empty, and all
items and descriptors carry the control of the first item. -/
def staticWF (p : Package) : Prop :=
  p.data ≠ [] ∧
  (∀ it ∈ p.data, it.desc.isSome = true ∧ ctrlOf it = ctrlOf (p.data.headD dfltData)) ∧
  (∀ d ∈ p.descs, d.ctrl = ctrlOf (p.data.headD dfltData))

instance (p : Package) : Decidable (staticWF p) := by
  unfold staticWF; infer_instance

/-! ### Concrete inputs used by witnesses and counterexamples -/

/-- A concrete two-item package for the C4 witness. -/
def c4pack : Package :=
  { data := [{ payload := 8, desc := none }, { payload := 9, desc := none }],
    descs := [{ ctrl := 5, index := 2 }, { ctrl := 5, index := 3 }],
    data_num := 2, priority := 0 }

/-- A one-item package whose single control (id 1) is discarded. -/
def packDiscarded : Package :=
  { data := [{ payload := 11, desc := some { ctrl := 1, index := 0 } }],
    descs := [], data_num := 1, priority := 0 }

/-- A one-item package on live control id 0. -/
def packLive : Package :=
  { data := [{ payload := 10, desc := some { ctrl := 0, index := 0 } }],
    descs := [], data_num := 1, priority := 0 }

/-- Discard predicate marking exactly control id 1 as discarded. -/
def discardOne : Nat → Bool := fun c => c == 1

/-- A single-item continuous-blob package: one data blob standing for
three logical items (`data_num = 3`). -/
def packContinuous3 : Package :=
  { data := [{ payload := 10, desc := some { ctrl := 0, index := 0 } }],
    descs := [], data_num := 3, priority := 0 }

/-- A one-item static package on live control id 0, descriptors filled
as `CacheStatic::Enqueue` leaves them. -/
def packStaticLive : Package :=
  { data := [{ payload := 10, desc := some { ctrl := 0, index := 0 } }],
    descs := [{ ctrl := 0, index := 0 }], data_num := 1, priority := 0 }

/-- A session description with every component present. -/
def descOkA : SessionDesc :=
  { name := "sA", modelPath := "m", funcName := "f",
    preprocType := "pre", postprocType := "post" }

/-- A second session description with the same signature as `descOkA`
but a different session name. -/
def descOkB : SessionDesc :=
  { name := "sB", modelPath := "m", funcName := "f",
    preprocType := "pre", postprocType := "post" }

/-- A session description whose `model` pointer is null. -/
def descNullModel : SessionDesc :=
  { name := "sN", modelPath := "", funcName := "f",
    preprocType := "pre", postprocType := "post", hasModel := false }

/-! ### Supporting lemmas about the cache -/

theorem sweepItems_fst (D : Nat → Bool) (xs : List InferData) :
    (sweepItems D xs).1 = xs.filter (fun it => !dataDiscarded D it) := by
  induction xs with
  | nil => rfl
  | cons it rest ih =>
    simp only [sweepItems, List.filter_cons]
    cases h : dataDiscarded D it <;> simp [h, ih]

theorem sweepItems_snd (D : Nat → Bool) (xs : List InferData) :
    (sweepItems D xs).2 = (xs.filter (fun it => dataDiscarded D it)).map
      (fun it => Event.processFailed (ctrlOf it) Status.SUCCESS) := by
  induction xs with
  | nil => rfl
  | cons it rest ih =>
    simp only [sweepItems, List.filter_cons]
    cases h : dataDiscarded D it <;> simp [h, ih]

theorem staticClearDiscard_fst (D : Nat → Bool) (q : List Package) :
    (staticClearDiscard D q).1 = q.filter (fun p => !firstDiscarded D p) := by
  induction q with
  | nil => rfl
  | cons p rest ih =>
    simp only [staticClearDiscard, List.filter_cons]
    cases h : firstDiscarded D p <;> simp [h, ih]

theorem staticClearDiscard_snd (D : Nat → Bool) (q : List Package) :
    (staticClearDiscard D q).2 =
      (queueItems (q.filter (fun p => firstDiscarded D p))).map
        (fun it => Event.processFailed (ctrlOf it) Status.SUCCESS) := by
  induction q with
  | nil => rfl
  | cons p rest ih =>
    simp only [staticClearDiscard, List.filter_cons]
    cases h : firstDiscarded D p <;> simp [h, ih, queueItems]

theorem queueItems_mem {it : InferData} {q : List Package} (h : it ∈ queueItems q) :
    ∃ p ∈ q, it ∈ p.data := by
  induction q with
  | nil => simp [queueItems] at h
  | cons p rest ih =>
    simp only [queueItems, List.mem_append] at h
    rcases h with h | h
    · exact ⟨p, List.mem_cons_self .., h⟩
    · obtain ⟨p2, hp2, hit⟩ := ih h
      exact ⟨p2, List.mem_cons_of_mem _ hp2, hit⟩

theorem repackAux_descs {bs : Nat} :
    ∀ (xs cur : List InferData), ∀ p ∈ repackAux bs cur xs, p.descs = [] := by
  intro xs
  induction xs with
  | nil => intro cur p hp; simp [repackAux] at hp
  | cons x rest ih =>
    intro cur p hp
    simp only [repackAux] at hp
    by_cases hc : bs ≤ (cur ++ [x]).length ∨ rest = []
    · simp only [if_pos hc, List.mem_cons] at hp
      rcases hp with rfl | hp
      · rfl
      · exact ih [] p hp
    · simp only [if_neg hc] at hp
      exact ih (cur ++ [x]) p hp

theorem repackAux_mem_data {bs : Nat} :
    ∀ (xs cur : List InferData), ∀ p ∈ repackAux bs cur xs,
      ∀ it ∈ p.data, it ∈ cur ∨ it ∈ xs := by
  intro xs
  induction xs with
  | nil => intro cur p hp; simp [repackAux] at hp
  | cons x rest ih =>
    intro cur p hp it hit
    simp only [repackAux] at hp
    by_cases hc : bs ≤ (cur ++ [x]).length ∨ rest = []
    · simp only [if_pos hc, List.mem_cons] at hp
      rcases hp with rfl | hp
      · simp only [List.mem_append, List.mem_singleton] at hit
        rcases hit with h | h
        · exact Or.inl h
        · exact Or.inr (h ▸ List.mem_cons_self ..)
      · rcases ih [] p hp it hit with h | h
        · simp at h
        · exact Or.inr (List.mem_cons_of_mem _ h)
    · simp only [if_neg hc] at hp
      rcases ih (cur ++ [x]) p hp it hit with h | h
      · simp only [List.mem_append, List.mem_singleton] at h
        rcases h with h | h
        · exact Or.inl h
        · exact Or.inr (h ▸ List.mem_cons_self ..)
      · exact Or.inr (List.mem_cons_of_mem _ h)

theorem repackAux_data_length {bs : Nat} (hbs : 1 ≤ bs) :
    ∀ (xs cur : List InferData), cur.length < bs →
      ∀ p ∈ repackAux bs cur xs, p.data.length ≤ bs := by
  intro xs
  induction xs with
  | nil => intro cur _ p hp; simp [repackAux] at hp
  | cons x rest ih =>
    intro cur hcur p hp
    simp only [repackAux] at hp
    by_cases hc : bs ≤ (cur ++ [x]).length ∨ rest = []
    · simp only [if_pos hc, List.mem_cons] at hp
      rcases hp with rfl | hp
      · simpa using hcur
      · exact ih [] (by simpa using hbs) p hp
    · simp only [if_neg hc] at hp
      push_neg at hc
      exact ih (cur ++ [x]) hc.1 p hp

theorem mapFind_append_of_none {m : List (String × Nat)} {k : String} (v : Nat)
    (h : mapFind m k = none) : mapFind (m ++ [(k, v)]) k = some v := by
  induction m with
  | nil => simp [mapFind]
  | cons kv rest ih =>
    obtain ⟨k2, v2⟩ := kv
    simp only [mapFind] at h ⊢
    by_cases hk : k2 = k
    · simp [hk] at h
    · simp only [if_neg hk] at h ⊢
      exact ih h

theorem createExecutor_lookup {st : ServerState} {d : SessionDesc} {c : Bool} {e : Nat}
    (h : (createExecutor st d c).2 = some e) :
    mapFind (createExecutor st d c).1.executorMap (executorName d) = some e := by
  unfold createExecutor at h ⊢
  cases hf : mapFind st.executorMap (executorName d) with
  | some e2 => simp [hf] at h ⊢; exact h
  | none =>
    cases c with
    | false => simp [hf] at h
    | true =>
      simp only [hf, if_pos] at h ⊢
      simp only [Option.some.injEq] at h
      subst h
      exact mapFind_append_of_none _ hf

theorem u32_val : u32 = 4294967296 := rfl

theorem u32sub_one {bs : Nat} (h1 : 1 ≤ bs) (h2 : bs < u32) : u32sub bs 1 = bs - 1 := by
  unfold u32sub
  rw [u32_val] at h2 ⊢
  omega

theorem headD_mem {l : List InferData} (h : l ≠ []) : l.headD dfltData ∈ l := by
  cases l with
  | nil => exact absurd rfl h
  | cons a rest => exact List.mem_cons_self ..

theorem staticEnqueueAux_descs_length {bs n ds : Nat} (hbs : 1 ≤ bs) (hbs32 : bs < u32)
    (hnc : ¬(ds = 1 ∧ n ≠ 1)) :
    ∀ (xs cur : List InferData), cur.length < bs →
      ∀ p ∈ staticEnqueueAux bs n ds cur xs, p.descs.length ≤ bs := by
  intro xs
  induction xs with
  | nil => intro cur _ p hp; simp [staticEnqueueAux] at hp
  | cons x rest ih =>
    intro cur hcur p hp
    simp only [staticEnqueueAux, u32sub_one hbs hbs32] at hp
    by_cases hc : (cur ++ [x]).length > bs - 1 ∨ rest = []
    · simp only [if_pos hc, List.mem_cons] at hp
      rcases hp with rfl | hp
      · simp only [staticFinalize, if_neg hnc, List.length_map, List.length_append,
          List.length_singleton]
        omega
      · exact ih [] (by simpa using hbs) p hp
    · simp only [if_neg hc] at hp
      push_neg at hc
      exact ih (cur ++ [x]) (by omega) p hp

theorem staticEnqueue_continuous {bs : Nat} {inp : Package} {x : InferData}
    (hx : inp.data = [x]) (hn : inp.data_num ≠ 1) :
    ∃ p, staticEnqueue bs [] inp = [p] ∧ p.descs.length = inp.data_num := by
  refine ⟨staticFinalize inp.data_num 1 [x], ?_, ?_⟩
  · unfold staticEnqueue
    rw [hx]
    simp [staticEnqueueAux]
  · simp [staticFinalize, hn, continuousDescs]

theorem staticEnqueueAux_mem_data {bs n ds : Nat} :
    ∀ (xs cur : List InferData), ∀ p ∈ staticEnqueueAux bs n ds cur xs,
      p.data ≠ [] ∧ ∀ it ∈ p.data, it ∈ cur ∨ it ∈ xs := by
  intro xs
  induction xs with
  | nil => intro cur p hp; simp [staticEnqueueAux] at hp
  | cons x rest ih =>
    intro cur p hp
    simp only [staticEnqueueAux] at hp
    by_cases hc : (cur ++ [x]).length > u32sub bs 1 ∨ rest = []
    · simp only [if_pos hc, List.mem_cons] at hp
      rcases hp with rfl | hp
      · refine ⟨by simp [staticFinalize], ?_⟩
        intro it hit
        simp only [staticFinalize, List.mem_append, List.mem_singleton] at hit
        rcases hit with h | h
        · exact Or.inl h
        · exact Or.inr (h ▸ List.mem_cons_self ..)
      · obtain ⟨hne, hmem⟩ := ih [] p hp
        refine ⟨hne, fun it hit => ?_⟩
        rcases hmem it hit with h | h
        · simp at h
        · exact Or.inr (List.mem_cons_of_mem _ h)
    · simp only [if_neg hc] at hp
      obtain ⟨hne, hmem⟩ := ih (cur ++ [x]) p hp
      refine ⟨hne, fun it hit => ?_⟩
      rcases hmem it hit with h | h
      · simp only [List.mem_append, List.mem_singleton] at h
        rcases h with h | h
        · exact Or.inl h
        · exact Or.inr (h ▸ List.mem_cons_self ..)
      · exact Or.inr (List.mem_cons_of_mem _ h)

theorem staticFinalize_WF {n ds c : Nat} {chunk : List InferData}
    (hne : chunk ≠ [])
    (hitems : ∀ it ∈ chunk, it.desc.isSome = true ∧ ctrlOf it = c) :
    staticWF (staticFinalize n ds chunk) := by
  have hhead : ctrlOf (chunk.headD dfltData) = c := (hitems _ (headD_mem hne)).2
  refine ⟨by simpa [staticFinalize] using hne, ?_, ?_⟩
  · intro it hit
    simp only [staticFinalize] at hit ⊢
    exact ⟨(hitems it hit).1, by rw [(hitems it hit).2, hhead]⟩
  · intro d hd
    simp only [staticFinalize] at hd ⊢
    by_cases hcont : ds = 1 ∧ n ≠ 1
    · simp only [if_pos hcont, continuousDescs, List.mem_map, List.mem_range] at hd
      obtain ⟨i, _, rfl⟩ := hd
      simp
    · simp only [if_neg hcont, List.mem_map] at hd
      obtain ⟨it, hit, rfl⟩ := hd
      obtain ⟨hsome, hctrl⟩ := hitems it hit
      rw [hhead]
      cases hdesc : it.desc with
      | none => rw [hdesc] at hsome; simp at hsome
      | some d0 =>
        simp only [hdesc, Option.getD_some]
        rw [← hctrl]
        simp [ctrlOf, hdesc]

theorem staticEnqueueAux_WF {bs n ds c : Nat} :
    ∀ (xs cur : List InferData),
      (∀ it ∈ cur, it.desc.isSome = true ∧ ctrlOf it = c) →
      (∀ it ∈ xs, it.desc.isSome = true ∧ ctrlOf it = c) →
      ∀ p ∈ staticEnqueueAux bs n ds cur xs, staticWF p := by
  intro xs
  induction xs with
  | nil => intro cur _ _ p hp; simp [staticEnqueueAux] at hp
  | cons x rest ih =>
    intro cur hcur hxs p hp
    have hcur2 : ∀ it ∈ cur ++ [x], it.desc.isSome = true ∧ ctrlOf it = c := by
      intro it hit
      rcases List.mem_append.1 hit with h | h
      · exact hcur it h
      · exact (List.mem_singleton.1 h) ▸ hxs x (List.mem_cons_self ..)
    have hrest : ∀ it ∈ rest, it.desc.isSome = true ∧ ctrlOf it = c :=
      fun it h => hxs it (List.mem_cons_of_mem _ h)
    simp only [staticEnqueueAux] at hp
    by_cases hc : (cur ++ [x]).length > u32sub bs 1 ∨ rest = []
    · simp only [if_pos hc, List.mem_cons] at hp
      rcases hp with rfl | hp
      · exact staticFinalize_WF (by simp) hcur2
      · exact ih [] (by simp) hrest p hp
    · simp only [if_neg hc] at hp
      exact ih (cur ++ [x]) hcur2 hrest p hp

theorem sessionSend_items {c : Nat} {pl : List Nat} :
    ∀ it ∈ (sessionSend c pl).data, it.desc.isSome = true ∧ ctrlOf it = c := by
  intro it hit
  simp only [sessionSend, List.mem_map] at hit
  obtain ⟨pr, _, rfl⟩ := hit
  simp [ctrlOf]

/-- Packages that `CacheStatic::Enqueue` builds from a `Session::Send`
package are well-formed: non-empty and single-control.  This grounds
the `staticWF` hypotheses used below. -/
theorem staticEnqueue_sessionSend_WF (bs c : Nat) (pl : List Nat) :
    ∀ p ∈ staticEnqueue bs [] (sessionSend c pl), staticWF p := by
  unfold staticEnqueue
  simp only [List.nil_append]
  exact staticEnqueueAux_WF _ _ (by simp) sessionSend_items

/-! ### Claim theorems -/

/-- Claim C10: `CacheBase::Push` on a cache that is not running (before
`Start` or after `Stop`) returns false and leaves the queue untouched
without invoking any strategy callback; `Push` on a running cache
returns true.  Stated for an arbitrary strategy `Enqueue`, covering
both `CacheStatic::Enqueue` and `CacheDynamic::Enqueue`. -/
theorem claim_C10_push_requires_running
    (enqueue : List Package → Package → List Package × List Event)
    (q : List Package) (p : Package) :
    cachePush enqueue false q p = (false, q, []) ∧
    (cachePush enqueue true q p).1 = true := by
  constructor <;> simp [cachePush]

/-- Claim C5: when the processor's `Process` returns a non-SUCCESS
status, `TaskNode::operator()` reports `ProcessFailed` with that status
exactly once per descriptor of the package and emits nothing else: no
thread-pool push, no `ProcessDone`, no done notification. -/
theorem claim_C5_process_failure_routes_processFailed
    (down : Option Nat) (s : Status) (pack : Package) (h : s ≠ Status.SUCCESS) :
    (taskNodeRun down s pack).2 =
      pack.descs.map (fun d => Event.processFailed d.ctrl s) ∧
    (taskNodeRun down s pack).1 = pack ∧
    (∀ e ∈ (taskNodeRun down s pack).2, ∃ d ∈ pack.descs, e = Event.processFailed d.ctrl s) := by
  refine ⟨by simp [taskNodeRun, h], by simp [taskNodeRun, h], ?_⟩
  intro e he
  simp only [taskNodeRun, if_pos h, List.mem_map] at he
  obtain ⟨d, hd, rfl⟩ := he
  exact ⟨d, hd, rfl⟩

/-- Witness for C5 at a concrete package and the TIMEOUT status. -/
theorem claim_C5_witness :
    (taskNodeRun none Status.TIMEOUT
        { data := [], descs := [{ ctrl := 3, index := 0 }], data_num := 1, priority := 0 }).2 =
      ({ data := [], descs := [{ ctrl := 3, index := 0 }], data_num := 1, priority := 0 } :
          Package).descs.map (fun d => Event.processFailed d.ctrl Status.TIMEOUT) :=
  (claim_C5_process_failure_routes_processFailed none Status.TIMEOUT _ (by decide)).1

/-- Claim C6: every report emitted by a discard sweep carries
`Status::SUCCESS` — the DYNAMIC sweep reports exactly the discarded
items of the drained queue, the STATIC sweep exactly the items of the
dropped packages, all through `ProcessFailed(Status::SUCCESS)`, never
an error status. -/
theorem claim_C6_sweep_reports_success
    (D : Nat → Bool) (bs : Nat) (qd qs : List Package) :
    (dynClearDiscard D bs qd).2 =
      ((queueItems qd).filter (fun it => dataDiscarded D it)).map
        (fun it => Event.processFailed (ctrlOf it) Status.SUCCESS) ∧
    (staticClearDiscard D qs).2 =
      (queueItems (qs.filter (fun p => firstDiscarded D p))).map
        (fun it => Event.processFailed (ctrlOf it) Status.SUCCESS) ∧
    (∀ e ∈ (dynClearDiscard D bs qd).2, ∃ c, e = Event.processFailed c Status.SUCCESS) ∧
    (∀ e ∈ (staticClearDiscard D qs).2, ∃ c, e = Event.processFailed c Status.SUCCESS) := by
  have h1 : (dynClearDiscard D bs qd).2 =
      ((queueItems qd).filter (fun it => dataDiscarded D it)).map
        (fun it => Event.processFailed (ctrlOf it) Status.SUCCESS) := sweepItems_snd D _
  have h2 := staticClearDiscard_snd D qs
  refine ⟨h1, h2, ?_, ?_⟩
  · intro e he
    rw [h1] at he
    simp only [List.mem_map] at he
    obtain ⟨it, _, rfl⟩ := he
    exact ⟨ctrlOf it, rfl⟩
  · intro e he
    rw [h2] at he
    simp only [List.mem_map] at he
    obtain ⟨it, _, rfl⟩ := he
    exact ⟨ctrlOf it, rfl⟩

theorem range_map_getD_eq_zip_map {α β γ : Type} (f : α → β → γ) (da : α) (db : β) :
    ∀ (ds : List α) (xs : List β), xs.length = ds.length →
      (List.range ds.length).map (fun i => f (ds.getD i da) (xs.getD i db)) =
        (ds.zip xs).map (fun pr => f pr.1 pr.2) := by
  intro ds
  induction ds with
  | nil => intro xs _; simp
  | cons d ds2 ih =>
    intro xs h
    cases xs with
    | nil => simp at h
    | cons x xs2 =>
      simp only [List.length_cons] at h
      rw [List.length_cons, List.range_succ_eq_map, List.map_cons, List.map_map,
        List.zip_cons_cons, List.map_cons]
      congr 1
      rw [← ih xs2 (by omega)]
      apply List.map_congr_left
      intro i _
      simp [Function.comp, List.getD_cons_succ]

/-- Claim C4: on SUCCESS at a tail TaskNode (no down node),
`Transmit` invokes `ProcessDone` exactly once per descriptor — with
status SUCCESS, the data element at the same position and the
descriptor's original index — and then fires the engine's done
notifier exactly once; with a down node it instead advances the
package's priority one tier and pushes the package to the thread pool
targeting that node. -/
theorem claim_C4_transmit_tail_and_forward
    (pack : Package) (node : Nat) (h : pack.data.length = pack.descs.length) :
    (transmit none pack).2 =
      (pack.descs.zip pack.data).map
        (fun pr => Event.processDone pr.1.ctrl Status.SUCCESS pr.2.payload pr.1.index)
        ++ [Event.doneNotify] ∧
    ((transmit none pack).2.count Event.doneNotify = 1) ∧
    transmit (some node) pack =
      ({ pack with priority := priorityNext pack.priority },
       [Event.pushToPool (priorityNext pack.priority) node]) := by
  have hmain : (transmit none pack).2 =
      (pack.descs.zip pack.data).map
        (fun pr => Event.processDone pr.1.ctrl Status.SUCCESS pr.2.payload pr.1.index)
        ++ [Event.doneNotify] := by
    show ((List.range pack.descs.length).map (fun i =>
        Event.processDone ((pack.descs.getD i dfltDesc).ctrl) Status.SUCCESS
          ((pack.data.getD i dfltData).payload) ((pack.descs.getD i dfltDesc).index)))
        ++ [Event.doneNotify] = _
    rw [range_map_getD_eq_zip_map
      (fun d x => Event.processDone d.ctrl Status.SUCCESS x.payload d.index) dfltDesc dfltData
      pack.descs pack.data h]
  refine ⟨hmain, ?_, rfl⟩
  rw [hmain, List.count_append]
  have hzero : ((pack.descs.zip pack.data).map
      (fun pr => Event.processDone pr.1.ctrl Status.SUCCESS pr.2.payload pr.1.index)).count
        Event.doneNotify = 0 := by
    rw [List.count_eq_zero]
    intro hmem
    simp only [List.mem_map] at hmem
    obtain ⟨pr, _, heq⟩ := hmem
    exact Event.noConfusion heq
  rw [hzero]
  rfl

/-- Witness for C4 at a concrete two-item package. -/
theorem claim_C4_witness :
    (transmit none c4pack).2 =
      (c4pack.descs.zip c4pack.data).map
        (fun pr => Event.processDone pr.1.ctrl Status.SUCCESS pr.2.payload pr.1.index)
        ++ [Event.doneNotify] :=
  (claim_C4_transmit_tail_and_forward c4pack 0 (by decide)).1

/-- Claim C7: for `RequestSync` with a positive timeout on a sync
session — if the future is not fulfilled within the remaining timeout,
the call discards the RequestControl, writes TIMEOUT through `*status`
and returns true; whereas when `WaitIfCacheFull` already timed out, it
writes TIMEOUT and returns false without sending the request. -/
theorem claim_C7_requestSync_timeouts
    (waitElapsed : Nat) (timeout : Int) (cbStatus : Status)
    (waitOk sendOk fulfilled : Bool) (ht : 0 < timeout) :
    (waitOk = true → sendOk = true → fulfilled = false →
        1 ≤ timeout - (waitElapsed : Int) →
      requestSync false false false false true waitOk waitElapsed timeout
          sendOk fulfilled cbStatus =
        { result := SyncRet.ret true, status := some Status.TIMEOUT,
          discarded := true, sent := true }) ∧
    (waitOk = false →
      requestSync false false false false true waitOk waitElapsed timeout
          sendOk fulfilled cbStatus =
        { result := SyncRet.ret false, status := some Status.TIMEOUT,
          discarded := false, sent := false }) := by
  constructor
  · rintro rfl rfl rfl hrem
    simp only [requestSync, if_pos ht]
    have h1 : ¬(0 < timeout ∧ timeout - (waitElapsed : Int) < 1) := by
      rintro ⟨_, hlt⟩; omega
    have h2 : 0 < timeout - (waitElapsed : Int) := by omega
    simp [h1, if_pos ht, if_pos h2]
    omega
  · rintro rfl
    simp [requestSync]

/-- Witness for C7: timeout 10 ms, 3 ms consumed by the cache wait,
callback never fulfilled — and the backpressure-timeout branch. -/
theorem claim_C7_witness :
    requestSync false false false false true true 3 10 true false Status.SUCCESS =
      { result := SyncRet.ret true, status := some Status.TIMEOUT,
        discarded := true, sent := true } ∧
    requestSync false false false false true false 3 10 true false Status.SUCCESS =
      { result := SyncRet.ret false, status := some Status.TIMEOUT,
        discarded := false, sent := false } :=
  ⟨(claim_C7_requestSync_timeouts 3 10 Status.SUCCESS true true false (by decide)).1
      rfl rfl rfl (by decide),
   (claim_C7_requestSync_timeouts 3 10 Status.SUCCESS false true false (by decide)).2 rfl⟩

/-- Claim C8: executor deduplication — when a session was successfully
created from `d1`, a second `CreateSession` whose SessionDesc `d2` has
the identical signature does not construct a new Executor: it returns a
session referencing the same executor and leaves the server state
unchanged. -/
theorem claim_C8_executor_dedup
    (st st1 : ServerState) (d1 d2 : SessionDesc) (o1 o2 c1 c2 : Bool) (s1 : SessionModel)
    (hm1 : d1.hasModel = true) (hp1 : d1.hasPreproc = true) (hq1 : d1.hasPostproc = true)
    (hm2 : d2.hasModel = true) (hp2 : d2.hasPreproc = true) (hq2 : d2.hasPostproc = true)
    (hsig : executorName d1 = executorName d2)
    (h1 : createSession st d1 o1 c1 = (st1, Outcome.ok s1)) :
    createSession st1 d2 o2 c2 =
      (st1, Outcome.ok { name := d2.name, executor := s1.executor, syncLink := !o2 }) := by
  simp only [createSession, hm1, hp1, hq1, Bool.not_true, Bool.false_eq_true, if_false,
    if_true] at h1
  cases hr : (createExecutor st d1 c1).2 with
  | none =>
    rw [hr] at h1
    simp at h1
  | some e =>
    rw [hr] at h1
    simp only [Prod.mk.injEq, Outcome.ok.injEq] at h1
    obtain ⟨hst, hs⟩ := h1
    have hlook : mapFind st1.executorMap (executorName d1) = some e :=
      hst ▸ createExecutor_lookup hr
    have hex : createExecutor st1 d2 c2 = (st1, some e) := by
      have hlook2 : mapFind st1.executorMap (executorName d2) = some e := hsig ▸ hlook
      simp only [createExecutor, hlook2]
    simp only [createSession, hm2, hp2, hq2, Bool.not_true, Bool.false_eq_true, if_false,
      if_true, hex]
    subst hs
    rfl

/-- Witness for C8: building a session for `descOkA` on an empty
server, then one for the same-signature `descOkB`, yields the same
executor (id 0) and an unchanged executor map. -/
theorem claim_C8_witness :
    createSession { executorMap := [("m_f_pre_post", 0)], nextExecutor := 1 } descOkB true true =
      ({ executorMap := [("m_f_pre_post", 0)], nextExecutor := 1 },
       Outcome.ok { name := "sB", executor := 0, syncLink := false }) :=
  claim_C8_executor_dedup {} _ descOkA descOkB false true true true
    { name := "sA", executor := 0, syncLink := true }
    rfl rfl rfl rfl rfl rfl rfl (by decide)

/-- Counterexample to C9 as stated: `CreateSession` with a null model
and `Request` with a null session do not return a failure value — they
trip a fatal glog CHECK, which aborts the process. -/
theorem claim_C9_counterexample :
    (createSession {} descNullModel false true).2 = Outcome.fatalCheck ∧
    (createSession {} descNullModel false true).2 ≠ Outcome.fail ∧
    requestAsync true false false true true = Outcome.fatalCheck ∧
    requestAsync true false false true true ≠ Outcome.fail := by
  refine ⟨by decide, by decide, by decide, by decide⟩

/-- Claim C9 as amended: null arguments (model/preproc in
CreateSession; session/input in Request; session/input/output/status in
RequestSync) hit a fatal CHECK rather than a returned failure, while
invalid conditions on non-null arguments — sync/async misuse, cache
backpressure timeout, executor-construction failure — are returned
synchronously as false/null, never thrown. -/
theorem claim_C9_amended :
    (∀ (st : ServerState) (d : SessionDesc) (o c : Bool),
        d.hasModel = false ∨ d.hasPreproc = false →
        createSession st d o c = (st, Outcome.fatalCheck)) ∧
    (∀ iN sL w sO, requestAsync true iN sL w sO = Outcome.fatalCheck) ∧
    (∀ sL w sO, requestAsync false true sL w sO = Outcome.fatalCheck) ∧
    (∀ sN iN oN stN sL w we t sO f cb,
        (sN = true ∨ iN = true ∨ oN = true ∨ stN = true) →
        (requestSync sN iN oN stN sL w we t sO f cb).result = SyncRet.fatalCheck) ∧
    (∀ w sO, requestAsync false false true w sO = Outcome.fail) ∧
    (∀ sO, requestAsync false false false false sO = Outcome.fail) ∧
    (∀ (st : ServerState) (d : SessionDesc) (o : Bool),
        d.hasModel = true → d.hasPreproc = true → d.hasPostproc = true →
        mapFind st.executorMap (executorName d) = none →
        createSession st d o false = (st, Outcome.fail)) := by
  refine ⟨?_, ?_, ?_, ?_, ?_, ?_, ?_⟩
  · intro st d o c h
    rcases h with h | h
    · simp [createSession, h]
    · cases hm : d.hasModel <;> simp [createSession, hm, h]
  · intro iN sL w sO; simp [requestAsync]
  · intro sL w sO; simp [requestAsync]
  · intro sN iN oN stN sL w we t sO f cb h
    rcases h with h | h | h | h <;> subst h <;> simp [requestSync]
  · intro w sO; simp [requestAsync]
  · intro sO; simp [requestAsync]
  · intro st d o hm hp hq hfind
    have hex : createExecutor st d false = (st, none) := by
      simp [createExecutor, hfind]
    simp [createSession, hm, hp, hq, hex]

/-- Witness for C9 (amended): a null model aborts via CHECK; a
sync-linked session passed to the async `Request` gets a synchronous
false. -/
theorem claim_C9_amended_witness :
    createSession {} descNullModel false true = ({}, Outcome.fatalCheck) ∧
    requestAsync false false true true true = Outcome.fail :=
  ⟨claim_C9_amended.1 {} descNullModel false true (Or.inl rfl),
   claim_C9_amended.2.2.2.2.1 true true⟩

/-- Counterexample to C2 as stated: on a running cache holding one
package whose only item is discarded, `Pop` returns null — the discard
sweep empties the queue and the code returns nullptr without waiting
for another package, although the cache was neither stopped nor
empty. -/
theorem claim_C2_counterexample :
    (popDyn discardOne 4 true [packDiscarded]).ret = none ∧
    ([packDiscarded] : List Package) ≠ [] := by
  constructor
  · rfl
  · decide

/-- Claim C2 as amended: `Pop` returns null exactly when the queue is
empty on wake-up (which the wait condition only allows once the cache
is stopped) or when the head package triggered a discard sweep that
emptied the whole queue; in every other case `Pop` returns a non-null
package.  Stated for both strategies. -/
theorem claim_C2_amended (D : Nat → Bool) (bs : Nat) (running : Bool) (q : List Package)
    (hwake : q = [] → running = false) :
    ((popDyn D bs running q).ret = none ↔
      q = [] ∨ (headHasDiscarded D q = true ∧ (dynClearDiscard D bs q).1 = [])) ∧
    ((popStatic D running q).ret = none ↔
      q = [] ∨ (headHasDiscarded D q = true ∧ (staticClearDiscard D q).1 = [])) := by
  rcases q with _ | ⟨p0, rest⟩
  · simp [popDyn, popStatic]
  · constructor
    · by_cases ha : (p0.data.any fun it => dataDiscarded D it) = true
      · rcases hr : (dynClearDiscard D bs (p0 :: rest)).1 with _ | ⟨p2, rest2⟩
        · simp [popDyn, ha, hr, headHasDiscarded]
        · simp [popDyn, ha, hr, headHasDiscarded]
      · simp [popDyn, ha, headHasDiscarded]
    · by_cases ha : (p0.data.any fun it => dataDiscarded D it) = true
      · rcases hr : (staticClearDiscard D (p0 :: rest)).1 with _ | ⟨p2, rest2⟩
        · simp [popStatic, ha, hr, headHasDiscarded]
        · simp [popStatic, ha, hr, headHasDiscarded]
      · simp [popStatic, ha, headHasDiscarded]

/-- Witness for C2 (amended) on a stopped, empty cache. -/
theorem claim_C2_witness :
    ((popDyn discardOne 4 false []).ret = none ↔
      ([] : List Package) = [] ∨
        (headHasDiscarded discardOne [] = true ∧ (dynClearDiscard discardOne 4 []).1 = [])) ∧
    ((popStatic discardOne false []).ret = none ↔
      ([] : List Package) = [] ∨
        (headHasDiscarded discardOne [] = true ∧ (staticClearDiscard discardOne []).1 = [])) :=
  claim_C2_amended discardOne 4 false [] (fun _ => rfl)

theorem moveDescToPackage_descs_length (p : Package) :
    (moveDescToPackage p).descs.length = p.descs.length + p.data.length := by
  simp [moveDescToPackage]

theorem staticPrepare_descs (p : Package) : (staticPrepare p).descs = p.descs := rfl

/-- Counterexample to C3 as stated: with `batch_size = 2`, pushing a
STATIC continuous-blob package (one data blob, `data_num = 3`) and
popping it yields a package with 3 descs — more than `batch_size`. -/
theorem claim_C3_counterexample :
    ((popStatic (fun _ => false) true (staticEnqueue 2 [] packContinuous3)).ret.map
        (fun p => p.descs.length)) = some 3 ∧ ¬(3 ≤ 2) := by
  constructor
  · rfl
  · decide

/-- Claim C3 as amended: every package leaving the cache carries at
most `batch_size` descs for the DYNAMIC strategy (batcher emissions and
sweep-rebuilt packages alike) and for STATIC non-continuous packages;
but the STATIC continuous-blob special case (`data.size()==1`,
`data_num>1`) creates exactly `data_num` descs, which exceeds
`batch_size` whenever `data_num > batch_size`. -/
theorem claim_C3_amended (D : Nat → Bool) (bs : Nat) (running : Bool)
    (qd qs : List Package) (inp inp2 : Package) (x : InferData)
    (buf : List InferData) (y : InferData)
    (hbs : 1 ≤ bs) (hbs32 : bs < u32)
    (hqd : ∀ p ∈ qd, p.data.length ≤ bs ∧ p.descs = [])
    (hqs : ∀ p ∈ qs, p.descs.length ≤ bs)
    (hnc : ¬(inp.data.length = 1 ∧ inp.data_num ≠ 1))
    (hx : inp2.data = [x]) (hn2 : inp2.data_num ≠ 1)
    (hbuf : buf.length < bs) :
    (∀ p, (popDyn D bs running qd).ret = some p → p.descs.length ≤ bs) ∧
    (∀ p, (popStatic D running qs).ret = some p → p.descs.length ≤ bs) ∧
    (∀ p ∈ staticEnqueue bs [] inp, p.descs.length ≤ bs) ∧
    (∃ p, staticEnqueue bs [] inp2 = [p] ∧ p.descs.length = inp2.data_num) ∧
    (∀ b, (batcherAddItem bs buf y).2 = some b → b.length ≤ bs) := by
  refine ⟨?_, ?_, ?_, staticEnqueue_continuous hx hn2, ?_⟩
  · intro p hp
    rcases qd with _ | ⟨p0, rest⟩
    · simp [popDyn] at hp
    · by_cases ha : (p0.data.any fun it => dataDiscarded D it) = true
      · rcases hr : (dynClearDiscard D bs (p0 :: rest)).1 with _ | ⟨p2, rest2⟩
        · simp [popDyn, ha, hr] at hp
        · simp only [popDyn, ha, if_true, hr] at hp
          obtain rfl : moveDescToPackage p2 = p := by simpa using hp
          have hmem : p2 ∈ (dynClearDiscard D bs (p0 :: rest)).1 := by
            rw [hr]; exact List.mem_cons_self ..
          have hd : p2.descs = [] := repackAux_descs _ _ p2 hmem
          have hl : p2.data.length ≤ bs := repackAux_data_length hbs _ []
            (by simpa using hbs) p2 hmem
          rw [moveDescToPackage_descs_length, hd]
          simpa using hl
      · simp only [popDyn, ha, if_false, Bool.false_eq_true] at hp
        obtain rfl : moveDescToPackage p0 = p := by simpa using hp
        obtain ⟨hlen, hdescs⟩ := hqd p0 (List.mem_cons_self ..)
        rw [moveDescToPackage_descs_length, hdescs]
        simpa using hlen
  · intro p hp
    rcases qs with _ | ⟨p0, rest⟩
    · simp [popStatic] at hp
    · by_cases ha : (p0.data.any fun it => dataDiscarded D it) = true
      · rcases hr : (staticClearDiscard D (p0 :: rest)).1 with _ | ⟨p2, rest2⟩
        · simp [popStatic, ha, hr] at hp
        · simp only [popStatic, ha, if_true, hr] at hp
          obtain rfl : staticPrepare p2 = p := by simpa using hp
          have hmem : p2 ∈ (p0 :: rest).filter (fun p3 => !firstDiscarded D p3) := by
            rw [← staticClearDiscard_fst, hr]; exact List.mem_cons_self ..
          have := hqs p2 (List.mem_of_mem_filter hmem)
          simpa [staticPrepare_descs] using this
      · simp only [popStatic, ha, if_false, Bool.false_eq_true] at hp
        obtain rfl : staticPrepare p0 = p := by simpa using hp
        simpa [staticPrepare_descs] using hqs p0 (List.mem_cons_self ..)
  · unfold staticEnqueue
    simp only [List.nil_append]
    exact staticEnqueueAux_descs_length hbs hbs32 hnc _ [] (by simpa using hbs)
  · intro b hb
    unfold batcherAddItem at hb
    simp only [List.length_append, List.length_singleton] at hb
    by_cases hc : bs ≤ buf.length + 1
    · simp only [if_pos hc, Option.some.injEq] at hb
      subst hb
      simp only [List.length_append, List.length_singleton]
      omega
    · simp [if_neg hc] at hb

/-- Witness for C3 (amended) at `batch_size = 2` with concrete queues,
a three-item STATIC push, the continuous-blob package and an empty
batcher buffer: the dynamically popped package respects the bound. -/
theorem claim_C3_witness : (moveDescToPackage packLive).descs.length ≤ 2 :=
  (claim_C3_amended discardOne 2 true [packLive] [packLive] (sessionSend 7 [1, 2, 3])
      packContinuous3 { payload := 10, desc := some { ctrl := 0, index := 0 } } [] dfltData
      (by decide) (by decide) (by decide) (by decide) (by decide) (by decide) (by decide)
      (by decide)).1 (moveDescToPackage packLive) rfl

theorem moveDescToPackage_descs_mem {p : Package} {d : TaskDesc}
    (h : d ∈ (moveDescToPackage p).descs) :
    d ∈ p.descs ∨ ∃ it ∈ p.data, it.desc.getD dfltDesc = d := by
  simp only [moveDescToPackage, List.mem_append, List.mem_map] at h
  exact h

/-- Claim C1: items whose RequestControl was discarded before dispatch
are never handed to `Processor.Process` — every package returned by
`Pop` carries only descriptors on live controls, for both strategies.
The hypotheses are the cache invariants of the running system: DYNAMIC
packages keep their descriptors inside the items until pop (`descs`
empty, every item's `desc` present, both enforced by
`CacheDynamic::Enqueue`); STATIC packages are single-control
(`staticWF`), which `staticEnqueue_sessionSend_WF` derives from the
shape `Session::Send` gives every pushed package. -/
theorem claim_C1_pop_only_live_items
    (D : Nat → Bool) (bs : Nat) (running : Bool) (qd qs : List Package)
    (hd0 : ∀ p ∈ qd, p.descs = [])
    (hd1 : ∀ p ∈ qd, ∀ it ∈ p.data, it.desc.isSome = true)
    (hs : ∀ p ∈ qs, staticWF p) :
    (∀ p, (popDyn D bs running qd).ret = some p → ∀ d ∈ p.descs, D d.ctrl = false) ∧
    (∀ p, (popStatic D running qs).ret = some p → ∀ d ∈ p.descs, D d.ctrl = false) := by
  constructor
  · intro p hp d hd
    rcases qd with _ | ⟨p0, rest⟩
    · simp [popDyn] at hp
    · by_cases ha : (p0.data.any fun it => dataDiscarded D it) = true
      · rcases hr : (dynClearDiscard D bs (p0 :: rest)).1 with _ | ⟨p2, rest2⟩
        · simp [popDyn, ha, hr] at hp
        · simp only [popDyn, ha, if_true, hr] at hp
          obtain rfl : moveDescToPackage p2 = p := by simpa using hp
          have hmem : p2 ∈ (dynClearDiscard D bs (p0 :: rest)).1 := by
            rw [hr]; exact List.mem_cons_self ..
          have hdesc2 : p2.descs = [] := repackAux_descs _ _ p2 hmem
          rcases moveDescToPackage_descs_mem hd with h | ⟨it, hit, rfl⟩
          · rw [hdesc2] at h; simp at h
          · have hlive : it ∈ (sweepItems D (queueItems (p0 :: rest))).1 := by
              rcases repackAux_mem_data _ _ p2 hmem it hit with h | h
              · simp at h
              · exact h
            rw [sweepItems_fst] at hlive
            obtain ⟨hq, hnd⟩ := List.mem_filter.1 hlive
            obtain ⟨pk, hpk, hitpk⟩ := queueItems_mem hq
            have hsome := hd1 pk hpk it hitpk
            have hndf : dataDiscarded D it = false := by simpa using hnd
            cases hdesc : it.desc with
            | none => rw [hdesc] at hsome; simp at hsome
            | some d0 =>
              have hdd : D d0.ctrl = false := by
                simpa [dataDiscarded, hdesc] using hndf
              simpa [hdesc] using hdd
      · simp only [popDyn, ha, if_false, Bool.false_eq_true] at hp
        obtain rfl : moveDescToPackage p0 = p := by simpa using hp
        have hdesc0 : p0.descs = [] := hd0 p0 (List.mem_cons_self ..)
        rcases moveDescToPackage_descs_mem hd with h | ⟨it, hit, rfl⟩
        · rw [hdesc0] at h; simp at h
        · have ha2 : (p0.data.any fun it => dataDiscarded D it) = false := by
            simpa using ha
          have hndf : dataDiscarded D it = false := by
            have := List.any_eq_false.1 ha2 it hit
            simpa using this
          have hsome := hd1 p0 (List.mem_cons_self ..) it hit
          cases hdesc : it.desc with
          | none => rw [hdesc] at hsome; simp at hsome
          | some d0 =>
            have hdd : D d0.ctrl = false := by
              simpa [dataDiscarded, hdesc] using hndf
            simpa [hdesc] using hdd
  · intro p hp d hd
    rcases qs with _ | ⟨p0, rest⟩
    · simp [popStatic] at hp
    · by_cases ha : (p0.data.any fun it => dataDiscarded D it) = true
      · rcases hr : (staticClearDiscard D (p0 :: rest)).1 with _ | ⟨p2, rest2⟩
        · simp [popStatic, ha, hr] at hp
        · simp only [popStatic, ha, if_true, hr] at hp
          obtain rfl : staticPrepare p2 = p := by simpa using hp
          have hmem2 : p2 ∈ List.filter (fun p3 => !firstDiscarded D p3) (p0 :: rest) := by
            rw [← staticClearDiscard_fst, hr]; exact List.mem_cons_self ..
          have hin : p2 ∈ p0 :: rest := List.mem_of_mem_filter hmem2
          have hfd : firstDiscarded D p2 = false := by
            have := List.of_mem_filter hmem2
            simpa using this
          obtain ⟨hne, hdata, hdescs⟩ := hs p2 hin
          rw [staticPrepare_descs] at hd
          rw [hdescs d hd]
          rcases hdl : p2.data with _ | ⟨it0, rest0⟩
          · exact absurd hdl hne
          · have hmem0 : it0 ∈ p2.data := by rw [hdl]; exact List.mem_cons_self ..
            have hndf : dataDiscarded D it0 = false := by
              have := hfd
              rw [firstDiscarded, hdl] at this
              exact this
            have h0 := hdata it0 hmem0
            cases hdesc : it0.desc with
            | none => have h1 := h0.1; rw [hdesc] at h1; simp at h1
            | some d0 =>
              have hdd : D d0.ctrl = false := by
                simpa [dataDiscarded, hdesc] using hndf
              simpa [ctrlOf, hdesc] using hdd
      · simp only [popStatic, ha, if_false, Bool.false_eq_true] at hp
        obtain rfl : staticPrepare p0 = p := by simpa using hp
        obtain ⟨hne, hdata, hdescs⟩ := hs p0 (List.mem_cons_self ..)
        rw [staticPrepare_descs] at hd
        rw [hdescs d hd]
        rcases hdl : p0.data with _ | ⟨it0, rest0⟩
        · exact absurd hdl hne
        · have hmem0 : it0 ∈ p0.data := by rw [hdl]; exact List.mem_cons_self ..
          have ha2 : (p0.data.any fun it => dataDiscarded D it) = false := by
            simpa using ha
          have hndf : dataDiscarded D it0 = false := by
            have := List.any_eq_false.1 ha2 it0 hmem0
            simpa using this
          have h0 := hdata it0 hmem0
          cases hdesc : it0.desc with
          | none => have h1 := h0.1; rw [hdesc] at h1; simp at h1
          | some d0 =>
            have hdd : D d0.ctrl = false := by
              simpa [dataDiscarded, hdesc] using hndf
            simpa [ctrlOf, hdesc] using hdd

/-- Witness for C1: on a static queue holding a live single-control
package, the popped package's descriptor is on a live control. -/
theorem claim_C1_witness : discardOne 0 = false :=
  (claim_C1_pop_only_live_items discardOne 2 true [packLive, packDiscarded] [packStaticLive]
      (by decide) (by decide) (by decide)).2 (staticPrepare packStaticLive) rfl
    { ctrl := 0, index := 0 } (by decide)

end InferServer

